import Mathlib

/-
Verification of the almanach subscription engine against its specification.

The embedding below follows the Python sources:
  src/almanach/subscription/defragment.py   (JoinDefragmenter)
  src/almanach/subscription/_pipelines.py   (JoinPipeline and its message handler)
  src/almanach/subscription/_types.py       (topic parsing, payload coercion)
  src/almanach/subscription/subscriber.py   (Subscriber.subscribe)

Python dicts are modelled as association lists with unique keys and the
dict operations written as structural recursion with exactly the
assignment, lookup, update and pop semantics of CPython dicts.
Monotonic clock readings and max_age_s are modelled as integers
(the code never does float-specific arithmetic on them, only subtraction
and comparison).  MessagePack values are the inductive Val; Python floats
are carried opaquely as rationals since no claim computes with them, and
a Python bool is an instance of int, so bools are legal join keys.
-/

set_option autoImplicit false

namespace Almanach

/-- A decoded MessagePack value as produced by msgpack.unpackb(raw=False). -/
inductive Val where
  | nil
  | bool (b : Bool)
  | int (n : Int)
  | float (q : ℚ)
  | str (s : String)
  | bytes (bs : List Nat)
  | arr (xs : List Val)
  | map (entries : List (Val × Val))

/-- Dict lookup, d.get(k): the value stored under k, if any. -/
def dget {κ : Type} {α : Type} [DecidableEq κ] : List (κ × α) → κ → Option α
  | [], _ => none
  | (a, b) :: t, k => if a = k then some b else dget t k

/-- Dict membership, k in d. -/
def dcontains {κ : Type} {α : Type} [DecidableEq κ] (d : List (κ × α)) (k : κ) : Bool :=
  (dget d k).isSome

/-- Dict assignment, d[k] = v: replace in place if present, else append. -/
def dset {κ : Type} {α : Type} [DecidableEq κ] : List (κ × α) → κ → α → List (κ × α)
  | [], k, v => [(k, v)]
  | (a, b) :: t, k, v => if a = k then (k, v) :: t else (a, b) :: dset t k v

/-- Dict removal, d.pop(k, None): drop the entry for k if present. -/
def dpop {κ : Type} {α : Type} [DecidableEq κ] : List (κ × α) → κ → List (κ × α)
  | [], _ => []
  | (a, b) :: t, k => if a = k then t else (a, b) :: dpop t k

/-- Dict update, d.update(p): assign every entry of p into d, in order. -/
def dupdate {α : Type} (d : List (String × α)) : List (String × α) → List (String × α)
  | [] => d
  | (k, v) :: t => dupdate (dset d k v) t

/-- A payload: the string-keyed dict produced by the decode boundary. -/
abbrev Payload := List (String × Val)

/-- A hashable join-key value: the shapes _extract_key accepts. -/
inductive JKey where
  | str (s : String)
  | int (n : Int)
  | float (q : ℚ)
  | bytes (bs : List Nat)
  | bool (b : Bool)
deriving DecidableEq

/-- Per-key inflight record of defragment.py (_JoinInflight). -/
structure Inflight where
  created_at : ℤ
  parts : List (String × Payload)

/-- The join defragmenter: declared source order, join key field,
TTL and the pending map (defragment.py, class JoinDefragmenter). -/
structure JoinDefragmenter where
  sources : List String
  key : String
  max_age_s : ℤ
  pending : List (JKey × Inflight)

/-- Push errors raised by _extract_key: ValueError for a missing key,
TypeError for a non-hashable key shape. -/
inductive PushErr where
  | missingKey
  | badKeyType
deriving DecidableEq

/-- The overlay build function (identical in _default_build of
defragment.py and in the build closure of _pipelines.py): overlay the
parts in declared source order, later sources overwriting keys. -/
def buildMerge (order : List String) (parts : List (String × Payload)) : Payload :=
  order.foldl
    (fun merged s =>
      match dget parts s with
      | some p => dupdate merged p
      | none => merged)
    []

namespace JoinDefragmenter

/-- JoinDefragmenter._extract_key: payload.get(key); None is missing;
str, int, float, bytes (and bool, an int instance) are accepted. -/
def extract_key (jd : JoinDefragmenter) (payload : Payload) : Except PushErr JKey :=
  match dget payload jd.key with
  | none => .error .missingKey
  | some .nil => .error .missingKey
  | some (.str s) => .ok (.str s)
  | some (.int n) => .ok (.int n)
  | some (.float q) => .ok (.float q)
  | some (.bytes bs) => .ok (.bytes bs)
  | some (.bool b) => .ok (.bool b)
  | some (.arr _) => .error .badKeyType
  | some (.map _) => .error .badKeyType

/-- JoinDefragmenter._cleanup at monotonic time now: when the TTL is
positive, pop every pending entry with now - created_at > max_age_s. -/
def cleanup (jd : JoinDefragmenter) (now : ℤ) : JoinDefragmenter :=
  if jd.max_age_s ≤ 0 then jd
  else { jd with pending :=
          jd.pending.filter (fun kv => decide (now - kv.2.created_at ≤ jd.max_age_s)) }

/-- JoinDefragmenter.push at monotonic time now: cleanup, extract the
join key, store the fragment under its source slot, and emit the merged
payload once every declared source has contributed. -/
def push (jd : JoinDefragmenter) (now : ℤ) (source : String) (payload : Payload) :
    JoinDefragmenter × Except PushErr (List Payload) :=
  let jd1 := cleanup jd now
  match extract_key jd1 payload with
  | .error e => (jd1, .error e)
  | .ok k =>
    let inflight : Inflight :=
      match dget jd1.pending k with
      | some inf => inf
      | none => { created_at := now, parts := [] }
    let inflight2 : Inflight := { inflight with parts := dset inflight.parts source payload }
    if jd1.sources.all (fun s => dcontains inflight2.parts s) then
      ({ jd1 with pending := dpop jd1.pending k },
       .ok [buildMerge jd1.sources inflight2.parts])
    else
      ({ jd1 with pending := dset jd1.pending k inflight2 }, .ok [])

/-- The parts map of the inflight entry for key k right after the push
of payload for source, at time now. -/
def partsAfter (jd : JoinDefragmenter) (now : ℤ) (source : String)
    (payload : Payload) (k : JKey) : List (String × Payload) :=
  dset (match dget (jd.cleanup now).pending k with
        | some inf => inf.parts
        | none => []) source payload

/-- The creation time the inflight entry for key k has (or gets) in a
push at time now: kept from the surviving entry, else now. -/
def entryCreatedAt (jd : JoinDefragmenter) (now : ℤ) (k : JKey) : ℤ :=
  match dget (jd.cleanup now).pending k with
  | some inf => inf.created_at
  | none => now

end JoinDefragmenter

/-! ## Topic parsing (_types.py, pydantic AnyUrl with UrlConstraints) -/

/-- A parsed URL value (the fields of a pydantic AnyUrl the code reads). -/
structure Url where
  scheme : String
  host : String
  port : Option Nat
  path : Option String
deriving DecidableEq

/-- Split a character list at the first scheme separator. -/
def splitScheme : List Char → Option (List Char × List Char)
  | [] => none
  | ':' :: '/' :: '/' :: rest => some ([], rest)
  | c :: rest => (splitScheme rest).map (fun pr => (c :: pr.1, pr.2))

/-- Split the part after the scheme into authority and optional path
(starting at the first slash). -/
def splitAuthority : List Char → List Char × Option (List Char)
  | [] => ([], none)
  | '/' :: rest => ([], some ('/' :: rest))
  | c :: rest =>
    let pr := splitAuthority rest
    (c :: pr.1, pr.2)

/-- Split an authority into host and optional port text at the first colon. -/
def splitPort : List Char → List Char × Option (List Char)
  | [] => ([], none)
  | ':' :: rest => ([], some rest)
  | c :: rest =>
    let pr := splitPort rest
    (c :: pr.1, pr.2)

/-- Parse a non-empty run of decimal digits. -/
def digitsToNat (cs : List Char) : Option Nat :=
  if cs.isEmpty then none
  else
    cs.foldl
      (fun acc c =>
        match acc with
        | none => none
        | some n => if c.isDigit then some (n * 10 + (c.toNat - 48)) else none)
      (some 0)

/-- URL parsing as performed by pydantic for scheme://host[:port][/path]
references: a scheme, a separator, a non-empty host, an optional numeric
port and an optional path.  Modelled from the behaviour of the pydantic
AnyUrl parser, which is third-party code the repository calls. -/
def parseUrl (s : String) : Option Url :=
  match splitScheme s.toList with
  | none => none
  | some (sch, rest) =>
    if sch.isEmpty then none
    else
      let ap := splitAuthority rest
      let hp := splitPort ap.1
      if hp.1.isEmpty then none
      else
        match hp.2 with
        | none =>
          some { scheme := String.mk sch, host := String.mk hp.1, port := none,
                 path := ap.2.map String.mk }
        | some pcs =>
          match digitsToNat pcs with
          | some n =>
            some { scheme := String.mk sch, host := String.mk hp.1, port := some n,
                   path := ap.2.map String.mk }
          | none => none

/-- validate_topic of _types.py: pydantic validation of the Topic type,
with allowed_schemes nats, host_required, default_port 4222. -/
def validate_topic (s : String) : Option Url :=
  match parseUrl s with
  | none => none
  | some u =>
    if u.scheme = "nats" then some { u with port := some (u.port.getD 4222) }
    else none

/-- subject_from_topic of _types.py: the path with every leading slash
stripped; empty is a ValueError. -/
def subject_from_topic (u : Url) : Except Unit String :=
  let subject := String.mk (((u.path.getD "").toList).dropWhile (fun c => c = '/'))
  if subject = "" then .error () else .ok subject

/-! ## Payload coercion (_types.py coerce_str / coerce_mapping) -/

/-- Whether a byte is a UTF-8 continuation byte. -/
def contByte (b : Nat) : Bool := 128 ≤ b && b < 192

/-- UTF-8 decoding of a byte list, fuelled by its length (each step
consumes at least one byte).  Rejects stray continuation bytes, truncated
sequences, overlong encodings, surrogates and out-of-range code points. -/
def utf8DecodeAux : Nat → List Nat → Option (List Char)
  | _, [] => some []
  | 0, _ :: _ => none
  | fuel + 1, b :: rest =>
    if b < 128 then
      (utf8DecodeAux fuel rest).map (fun cs => Char.ofNat b :: cs)
    else if b < 192 then none
    else if b < 224 then
      match rest with
      | c1 :: rest1 =>
        if contByte c1 then
          let cp := (b - 192) * 64 + (c1 - 128)
          if cp < 128 then none
          else (utf8DecodeAux fuel rest1).map (fun cs => Char.ofNat cp :: cs)
        else none
      | [] => none
    else if b < 240 then
      match rest with
      | c1 :: c2 :: rest2 =>
        if contByte c1 && contByte c2 then
          let cp := (b - 224) * 4096 + (c1 - 128) * 64 + (c2 - 128)
          if cp < 2048 then none
          else if 55296 ≤ cp && cp < 57344 then none
          else (utf8DecodeAux fuel rest2).map (fun cs => Char.ofNat cp :: cs)
        else none
      | _ => none
    else if b < 248 then
      match rest with
      | c1 :: c2 :: c3 :: rest3 =>
        if contByte c1 && contByte c2 && contByte c3 then
          let cp := (b - 240) * 262144 + (c1 - 128) * 4096 + (c2 - 128) * 64 + (c3 - 128)
          if cp < 65536 then none
          else if 1114111 < cp then none
          else (utf8DecodeAux fuel rest3).map (fun cs => Char.ofNat cp :: cs)
        else none
      | _ => none
    else none

/-- bytes.decode(utf-8) on a byte list: some text or a decode error. -/
def utf8Decode (bs : List Nat) : Option String :=
  (utf8DecodeAux bs.length bs).map (fun cs => String.mk cs)

/-- Coercion errors of _types.py: TypeError for a non-mapping top level
or a key that is neither text nor bytes (including invalid UTF-8). -/
inductive CoerceErr where
  | notAMapping
  | badKeyType
deriving DecidableEq

/-- coerce_str of _types.py: text passes through, bytes are decoded as
UTF-8, anything else is a TypeError. -/
def coerce_str (v : Val) : Except CoerceErr String :=
  match v with
  | .str s => .ok s
  | .bytes bs =>
    match utf8Decode bs with
    | some s => .ok s
    | none => .error .badKeyType
  | _ => .error .badKeyType

/-- The entry fold of coerce_mapping: out[coerce_str(k)] = v. -/
def coerceEntries : List (Val × Val) → Payload → Except CoerceErr Payload
  | [], acc => .ok acc
  | (k, v) :: rest, acc =>
    match coerce_str k with
    | .ok s => coerceEntries rest (dset acc s v)
    | .error e => .error e

/-- coerce_mapping of _types.py: a mapping whose keys coerce to text. -/
def coerce_mapping (v : Val) : Except CoerceErr Payload :=
  match v with
  | .map entries => coerceEntries entries []
  | _ => .error .notAMapping

/-- The inline per-key coercion of the pipeline handler
(_pipelines.py, lines 125-129): every key must already be text;
a bytes key, like any other non-text key, raises TypeError. -/
def coerceStrict : List (Val × Val) → Payload → Except Unit Payload
  | [], acc => .ok acc
  | (k, v) :: rest, acc =>
    match k with
    | .str s => coerceStrict rest (dset acc s v)
    | _ => .error ()

/-! ## Pipeline (_pipelines.py, class JoinPipeline) -/

/-- Validator outcome: the inner try of the handler recognizes
ValidationError, ValueError and TypeError; every other exception class is
unexpected and reaches the outer except. -/
inductive VErr where
  | recognized
  | unexpected
deriving DecidableEq

/-- Callback outcome, with the same recognized / unexpected split. -/
inductive CErr where
  | recognized
  | unexpected
deriving DecidableEq

/-- The observable effects of one handler invocation: a warning log, an
error log from the outer except, or a user callback invocation. -/
inductive Ev (T : Type) where
  | warn
  | errlog
  | cb (t : T)

/-- Whether an event is a callback invocation. -/
def Ev.isCb {T : Type} : Ev T → Bool
  | .cb _ => true
  | _ => false

/-- The pipeline: declared source order, validator, callback, and the
join defragmenter (None exactly when there is a single source). -/
structure JoinPipeline (T : Type) where
  sourceOrder : List String
  validator : Payload → Except VErr T
  callback : T → Except CErr Unit
  join : Option JoinDefragmenter

/-- The key argument of JoinPipeline and Subscriber.subscribe: absent,
a text string, or a value of some other Python type. -/
inductive KeyArg where
  | none
  | str (s : String)
  | nonstr
deriving DecidableEq

/-- Registration errors raised by Subscriber.subscribe and
JoinPipeline.__init__. -/
inductive RegErr where
  | mixedTopicsAndSources
  | keyRequired
  | keyNotString
  | noSources
  | badTopic
deriving DecidableEq

/-- JoinPipeline.__init__: sources must be non-empty, every topic must
validate, a multi-source pipeline requires a text-string key, and the
join defragmenter is instantiated only for more than one source
(with the default TTL of 60 seconds). -/
def mkJoinPipeline {T : Type} (sources : List (String × List String))
    (validator : Payload → Except VErr T) (callback : T → Except CErr Unit)
    (key : KeyArg) : Except RegErr (JoinPipeline T) :=
  if sources.isEmpty then .error .noSources
  else if !(sources.all fun sp => sp.2.all fun t => (validate_topic t).isSome) then
    .error .badTopic
  else
    let order := sources.map Prod.fst
    if sources.length = 1 then
      match key with
      | .nonstr => .error .keyNotString
      | _ => .ok { sourceOrder := order, validator := validator, callback := callback,
                   join := none }
    else
      match key with
      | .none => .error .keyRequired
      | .nonstr => .error .keyNotString
      | .str s =>
        .ok { sourceOrder := order, validator := validator, callback := callback,
              join := some { sources := order, key := s, max_age_s := 60, pending := [] } }

/-- The loop over completed merged payloads in the handler: each merged
payload is validated and dispatched; recognized errors from the validator
or the callback log a warning and continue; an unexpected error escapes
to the outer except, which logs and stops the loop. -/
def mergedLoop {T : Type} (p : JoinPipeline T) : List Payload → List (Ev T)
  | [] => []
  | m :: rest =>
    match p.validator m with
    | .error .recognized => .warn :: mergedLoop p rest
    | .error .unexpected => [.errlog]
    | .ok t =>
      .cb t ::
        match p.callback t with
        | .ok _ => mergedLoop p rest
        | .error .recognized => .warn :: mergedLoop p rest
        | .error .unexpected => [.errlog]

/-- One delivered frame: the result of msgpack.unpackb on its bytes
(error when unpackb itself raises). -/
abbrev Frame := Except Unit Val

/-- The per-message handler built by _mk_handler for one source, at
monotonic time now.  Returns the pipeline with its updated join state and
the list of observable effects.  Every error path ends in a log event:
the outer except swallows everything, so the handler always returns. -/
def handler {T : Type} (p : JoinPipeline T) (source : String) (now : ℤ)
    (frame : Frame) : JoinPipeline T × List (Ev T) :=
  match frame with
  | .error _ => (p, [.errlog])
  | .ok raw =>
    match raw with
    | .map entries =>
      match coerceStrict entries [] with
      | .error _ => (p, [.errlog])
      | .ok payload_dict =>
        match p.validator payload_dict with
        | .error .recognized => (p, [.warn])
        | .error .unexpected => (p, [.errlog])
        | .ok t =>
          match p.join with
          | none =>
            (p, .cb t :: match p.callback t with
                         | .ok _ => []
                         | .error _ => [.errlog])
          | some jd =>
            match jd.push now source payload_dict with
            | (jd2, .error _) => ({ p with join := some jd2 }, [.errlog])
            | (jd2, .ok completed) =>
              ({ p with join := some jd2 }, mergedLoop p completed)
    | _ => (p, [.errlog])

/-! ## Subscriber registration (subscriber.py, Subscriber.subscribe) -/

/-- Subscriber.subscribe followed by applying the returned decorator:
positional topics and named sources are mutually exclusive; with more
than one declared source (positional topics count individually, named
sources count as groups) the key is required and must be a text string;
positional topics are folded into the single auto-named source. -/
def subscribe_register {T : Type} (topics : List String)
    (sources : List (String × List String))
    (validator : Payload → Except VErr T) (callback : T → Except CErr Unit)
    (key : KeyArg) : Except RegErr (JoinPipeline T) :=
  if !topics.isEmpty && !sources.isEmpty then .error .mixedTopicsAndSources
  else
    let n := if !sources.isEmpty then sources.length else topics.length
    if n > 1 then
      match key with
      | .none => .error .keyRequired
      | .nonstr => .error .keyNotString
      | .str _ =>
        let srcs := if !sources.isEmpty then sources else [("source", topics)]
        mkJoinPipeline srcs validator callback key
    else
      match key with
      | .nonstr => .error .keyNotString
      | _ =>
        let srcs := if !sources.isEmpty then sources else [("source", topics)]
        mkJoinPipeline srcs validator callback key

/-! ## Spec-side helpers and concrete fixtures -/

/-- The contribution of source s to field f: the value for f in the
fragment stored for s, if any. -/
def contribAt (parts : List (String × Payload)) (s f : String) : Option Val :=
  match dget parts s with
  | some p => dget p f
  | none => none

/-- Pick the later value when present: the per-field shape of one
overlay step. -/
def olast (a b : Option Val) : Option Val :=
  match b with
  | some v => some v
  | none => a

/-- Whether a key value is already a text string (the only shape the
inline pipeline coercion accepts). -/
def keyIsStr : Val → Bool
  | .str _ => true
  | _ => false

/-- Whether a key value is a text string or a UTF-8-decodable byte
string (the shapes coerce_str accepts). -/
def keyStrOrUtf8 : Val → Bool
  | .str _ => true
  | .bytes bs => (utf8Decode bs).isSome
  | _ => false

/-! ## Concrete fixtures used by witnesses and counterexamples -/

/-- The raw fragment of the two-source join scenario of the tests. -/
def praw : Payload := [("msg_uuid", .str "1"), ("x", .int 1), ("over", .str "raw")]

/-- The enriched fragment of the two-source join scenario. -/
def penr : Payload := [("msg_uuid", .str "1"), ("over", .str "enriched"), ("y", .int 2)]

/-- A two-source defragmenter holding the raw fragment for key 1,
received at time 0. -/
def jdEx : JoinDefragmenter :=
  { sources := ["raw", "enriched"], key := "msg_uuid", max_age_s := 60,
    pending := [(.str "1", ⟨0, [("raw", praw)]⟩)] }

/-- A payload with no join-key field. -/
def pm : Payload := [("x", .int 1)]

/-- A later raw fragment for the same key, with an updated field. -/
def praw2 : Payload := [("msg_uuid", .str "1"), ("x", .int 7), ("over", .str "raw")]

/-- A two-source defragmenter with nothing pending. -/
def jdEmpty : JoinDefragmenter :=
  { sources := ["raw", "enriched"], key := "msg_uuid", max_age_s := 60, pending := [] }

/-- Whether a decoded value is a mapping at the top level. -/
def isMapVal : Val → Bool
  | .map _ => true
  | _ => false

/-- The identity validator used by the passthrough tests. -/
def valId : Payload → Except VErr Payload := fun pd => .ok pd

/-- A callback that always succeeds. -/
def cbOk : Payload → Except CErr Unit := fun _ => .ok ()

/-- A validator that rejects any payload containing the field bad. -/
def valReject : Payload → Except VErr Payload := fun pd =>
  match dget pd "bad" with
  | some _ => .error .recognized
  | none => .ok pd

/-- A single-source pipeline with the identity validator. -/
def pSingle : JoinPipeline Payload :=
  { sourceOrder := ["source"], validator := valId, callback := cbOk, join := none }

/-- A single-source pipeline with the rejecting validator. -/
def pReject : JoinPipeline Payload :=
  { sourceOrder := ["source"], validator := valReject, callback := cbOk, join := none }

/-- A two-source pipeline with the rejecting validator and an empty join. -/
def pJoin : JoinPipeline Payload :=
  { sourceOrder := ["raw", "enriched"], validator := valReject, callback := cbOk,
    join := some jdEmpty }

/-! ## Dictionary lemmas -/

section DictLemmas

variable {κ : Type} {α : Type} [DecidableEq κ]

theorem dget_dset (d : List (κ × α)) (k : κ) (v : α) (f : κ) :
    dget (dset d k v) f = if f = k then some v else dget d f := by
  induction d with
  | nil =>
    by_cases h : f = k
    · simp [dget, dset, h]
    · have h2 : ¬ k = f := fun hh => h hh.symm
      simp [dget, dset, h, h2]
  | cons hd t ih =>
    obtain ⟨a, b⟩ := hd
    by_cases hak : a = k
    · subst hak
      by_cases hfk : f = a
      · simp [dget, dset, hfk]
      · have h2 : ¬ a = f := fun hh => hfk hh.symm
        simp [dget, dset, hfk, h2]
    · by_cases haf : a = f
      · subst haf
        simp [dget, dset, hak]
      · simp [dget, dset, hak, haf, ih]

theorem dset_dset (d : List (κ × α)) (k : κ) (a b : α) :
    dset (dset d k a) k b = dset d k b := by
  induction d with
  | nil => simp [dset]
  | cons hd t ih =>
    obtain ⟨x, y⟩ := hd
    by_cases hxk : x = k
    · simp [dset, hxk]
    · simp [dset, hxk, ih]

theorem dget_mem {d : List (κ × α)} {k : κ} {v : α} (h : dget d k = some v) :
    (k, v) ∈ d := by
  induction d with
  | nil => simp [dget] at h
  | cons hd t ih =>
    obtain ⟨a, b⟩ := hd
    by_cases hak : a = k
    · subst hak
      simp [dget] at h
      simp [h]
    · simp [dget, hak] at h
      exact List.mem_cons_of_mem _ (ih h)

theorem dget_eq_none_of_not_mem {d : List (κ × α)} {k : κ}
    (h : k ∉ d.map Prod.fst) : dget d k = none := by
  induction d with
  | nil => rfl
  | cons hd t ih =>
    obtain ⟨a, b⟩ := hd
    have hak : ¬ a = k := fun hh => h (by simp [hh])
    have ht : k ∉ t.map Prod.fst := fun hh => h (by simp [hh])
    simp [dget, hak, ih ht]

omit [DecidableEq κ] in
theorem keys_filter_sublist (d : List (κ × α)) (pr : κ × α → Bool) :
    ((d.filter pr).map Prod.fst).Sublist (d.map Prod.fst) :=
  List.Sublist.map Prod.fst (List.filter_sublist d)

theorem dget_filter {d : List (κ × α)} (pr : κ × α → Bool) (k : κ)
    (hnd : (d.map Prod.fst).Nodup) :
    dget (d.filter pr) k =
      match dget d k with
      | some v => if pr (k, v) then some v else none
      | none => none := by
  induction d with
  | nil => rfl
  | cons hd t ih =>
    obtain ⟨a, b⟩ := hd
    rw [List.map_cons, List.nodup_cons] at hnd
    by_cases hak : a = k
    · subst hak
      have hnone : dget (t.filter pr) a = none :=
        dget_eq_none_of_not_mem fun hmem => hnd.1 ((keys_filter_sublist t pr).subset hmem)
      by_cases hpr : pr (a, b) = true
      · simp [List.filter_cons, hpr, dget]
      · simp [List.filter_cons, hpr, dget, hnone]
    · by_cases hpr : pr (a, b) = true
      · simp [List.filter_cons, hpr, dget, hak, ih hnd.2]
      · simp [List.filter_cons, hpr, dget, hak, ih hnd.2]

theorem mem_keys_dset (d : List (κ × α)) (k : κ) (v : α) (f : κ) :
    f ∈ (dset d k v).map Prod.fst ↔ f ∈ d.map Prod.fst ∨ f = k := by
  induction d with
  | nil => simp [dset]
  | cons hd t ih =>
    obtain ⟨a, b⟩ := hd
    by_cases hak : a = k
    · subst hak
      simp [dset]
      tauto
    · simp [dset, hak, ih]
      tauto

theorem nodup_keys_dset {d : List (κ × α)} (k : κ) (v : α)
    (hnd : (d.map Prod.fst).Nodup) : ((dset d k v).map Prod.fst).Nodup := by
  induction d with
  | nil => simp [dset]
  | cons hd t ih =>
    obtain ⟨a, b⟩ := hd
    rw [List.map_cons, List.nodup_cons] at hnd
    by_cases hak : a = k
    · subst hak
      have hd : dset ((a, b) :: t) a v = (a, v) :: t := by simp [dset]
      rw [hd, List.map_cons, List.nodup_cons]
      exact ⟨hnd.1, hnd.2⟩
    · have hd : dset ((a, b) :: t) k v = (a, b) :: dset t k v := by simp [dset, hak]
      rw [hd, List.map_cons, List.nodup_cons]
      refine ⟨fun hmem => ?_, ih hnd.2⟩
      rcases (mem_keys_dset t k v a).1 hmem with h | h
      · exact hnd.1 h
      · exact hak h

theorem keys_dpop_sublist (d : List (κ × α)) (k : κ) :
    ((dpop d k).map Prod.fst).Sublist (d.map Prod.fst) := by
  induction d with
  | nil => simp [dpop]
  | cons hd t ih =>
    obtain ⟨a, b⟩ := hd
    by_cases hak : a = k
    · simp only [dpop, if_pos hak, List.map_cons]
      exact List.sublist_cons_self a (t.map Prod.fst)
    · simpa [dpop, hak] using List.Sublist.cons₂ a ih

theorem dget_dpop_self {d : List (κ × α)} (k : κ)
    (hnd : (d.map Prod.fst).Nodup) : dget (dpop d k) k = none := by
  induction d with
  | nil => rfl
  | cons hd t ih =>
    obtain ⟨a, b⟩ := hd
    rw [List.map_cons, List.nodup_cons] at hnd
    by_cases hak : a = k
    · subst hak
      have hd : dpop ((a, b) :: t) a = t := by simp [dpop]
      rw [hd]
      exact dget_eq_none_of_not_mem hnd.1
    · simp [dpop, dget, hak, ih hnd.2]

theorem dget_dpop_ne (d : List (κ × α)) (k f : κ) (h : f ≠ k) :
    dget (dpop d k) f = dget d f := by
  induction d with
  | nil => rfl
  | cons hd t ih =>
    obtain ⟨a, b⟩ := hd
    by_cases hak : a = k
    · subst hak
      have h2 : ¬ a = f := fun hh => h hh.symm
      simp [dpop, dget, h2]
    · simp [dpop, dget, hak, ih]

end DictLemmas

theorem dget_dupdate (d p : List (String × Val)) (f : String)
    (hp : (p.map Prod.fst).Nodup) :
    dget (dupdate d p) f =
      match dget p f with
      | some v => some v
      | none => dget d f := by
  induction p generalizing d with
  | nil => rfl
  | cons hd t ih =>
    obtain ⟨k, v⟩ := hd
    rw [List.map_cons, List.nodup_cons] at hp
    by_cases hfk : f = k
    · subst hfk
      have ht : dget t f = none := dget_eq_none_of_not_mem hp.1
      simp [dupdate, dget, ih _ hp.2, ht, dget_dset]
    · have hkf : ¬ k = f := fun hh => hfk hh.symm
      simp [dupdate, dget, ih _ hp.2, dget_dset, hfk, hkf]

/-! ## Overlay lemmas -/

theorem dget_buildMerge_from (order : List String) (parts : List (String × Payload))
    (f : String)
    (hwf : ∀ s ∈ order, ∀ p, dget parts s = some p → (p.map Prod.fst).Nodup)
    (init : Payload) :
    dget (order.foldl
      (fun merged s =>
        match dget parts s with
        | some p => dupdate merged p
        | none => merged) init) f =
      (order.map (fun s => contribAt parts s f)).foldl olast (dget init f) := by
  induction order generalizing init with
  | nil => rfl
  | cons s rest ih =>
    simp only [List.foldl_cons, List.map_cons]
    rw [ih (fun s2 hs2 => hwf s2 (by simp [hs2]))]
    congr 1
    cases hs : dget parts s with
    | none => simp [contribAt, hs, olast]
    | some p =>
      rw [dget_dupdate _ _ _ (hwf s (by simp) p hs)]
      cases hdf : dget p f <;> simp [contribAt, hs, olast, hdf]

theorem dget_buildMerge (order : List String) (parts : List (String × Payload))
    (f : String)
    (hwf : ∀ s ∈ order, ∀ p, dget parts s = some p → (p.map Prod.fst).Nodup) :
    dget (buildMerge order parts) f =
      (order.map (fun s => contribAt parts s f)).foldl olast none :=
  dget_buildMerge_from order parts f hwf []

theorem foldl_olast_all_none (l : List (Option Val)) (acc : Option Val)
    (h : ∀ o ∈ l, o = none) : l.foldl olast acc = acc := by
  induction l generalizing acc with
  | nil => rfl
  | cons o rest ih =>
    have ho : o = none := h o (by simp)
    subst ho
    simpa [olast] using ih acc (fun o hm => h o (by simp [hm]))

theorem foldl_olast_last_some (l : List (Option Val)) (acc : Option Val)
    (i : Nat) (hi : i < l.length) (v : Val) (hv : l.get ⟨i, hi⟩ = some v)
    (hafter : ∀ j (hj : j < l.length), i < j → l.get ⟨j, hj⟩ = none) :
    l.foldl olast acc = some v := by
  induction l generalizing acc i with
  | nil => exact absurd hi (by simp)
  | cons o rest ih =>
    cases i with
    | zero =>
      have ho : o = some v := hv
      subst ho
      have hrest : ∀ o2 ∈ rest, o2 = none := by
        intro o2 hm
        obtain ⟨⟨j, hj⟩, hget⟩ := List.mem_iff_get.1 hm
        have h2 := hafter (j + 1) (by simpa using Nat.succ_lt_succ hj) (Nat.succ_pos j)
        rw [← hget]
        simpa using h2
      simpa [olast] using foldl_olast_all_none rest _ hrest
    | succ i2 =>
      have hi2 : i2 < rest.length := by simpa using Nat.lt_of_succ_lt_succ hi
      refine ih _ i2 hi2 hv ?_
      intro j hj hlt
      have := hafter (j + 1) (by simpa using Nat.succ_lt_succ hj) (Nat.succ_lt_succ hlt)
      simpa using this

theorem foldl_olast_ne_none_iff (l : List (Option Val)) (acc : Option Val) :
    l.foldl olast acc ≠ none ↔ acc ≠ none ∨ ∃ o ∈ l, o ≠ none := by
  induction l generalizing acc with
  | nil => simp
  | cons o rest ih =>
    simp only [List.foldl_cons, ih]
    cases o with
    | none => simp [olast]
    | some v =>
      simp only [olast]
      constructor
      · intro _
        exact Or.inr ⟨some v, by simp⟩
      · intro _
        exact Or.inl (by simp)

/-! ## Push characterization -/

namespace JoinDefragmenter

theorem cleanup_key (jd : JoinDefragmenter) (now : ℤ) :
    (jd.cleanup now).key = jd.key := by
  unfold cleanup
  split <;> rfl

theorem cleanup_sources (jd : JoinDefragmenter) (now : ℤ) :
    (jd.cleanup now).sources = jd.sources := by
  unfold cleanup
  split <;> rfl

theorem cleanup_max_age (jd : JoinDefragmenter) (now : ℤ) :
    (jd.cleanup now).max_age_s = jd.max_age_s := by
  unfold cleanup
  split <;> rfl

theorem extract_key_cleanup (jd : JoinDefragmenter) (now : ℤ) (payload : Payload) :
    (jd.cleanup now).extract_key payload = jd.extract_key payload := by
  unfold extract_key
  rw [cleanup_key]

theorem push_spec (jd : JoinDefragmenter) (now : ℤ) (source : String)
    (payload : Payload) (k : JKey) (hk : jd.extract_key payload = .ok k) :
    jd.push now source payload =
      (if (jd.cleanup now).sources.all
            (fun s => dcontains (jd.partsAfter now source payload k) s) then
        ({ jd.cleanup now with pending := dpop (jd.cleanup now).pending k },
         .ok [buildMerge (jd.cleanup now).sources (jd.partsAfter now source payload k)])
      else
        ({ jd.cleanup now with
             pending := dset (jd.cleanup now).pending k
                          ⟨jd.entryCreatedAt now k, jd.partsAfter now source payload k⟩ },
         .ok [])) := by
  have hck := extract_key_cleanup jd now payload
  simp only [push, partsAfter, entryCreatedAt, hck, hk]
  cases hdg : dget (jd.cleanup now).pending k <;> simp [hdg]

theorem cleanup_pending_nodup (jd : JoinDefragmenter) (now : ℤ)
    (hnd : (jd.pending.map Prod.fst).Nodup) :
    ((jd.cleanup now).pending.map Prod.fst).Nodup := by
  unfold cleanup
  split
  · exact hnd
  · exact (keys_filter_sublist jd.pending _).nodup hnd

theorem push_preserves_nodup (jd : JoinDefragmenter) (now : ℤ) (source : String)
    (payload : Payload) (hnd : (jd.pending.map Prod.fst).Nodup) :
    (((jd.push now source payload).1).pending.map Prod.fst).Nodup := by
  have h1 := cleanup_pending_nodup jd now hnd
  simp only [push, extract_key_cleanup]
  cases hk : jd.extract_key payload with
  | error e => exact h1
  | ok k =>
    simp only
    split
    · exact (keys_dpop_sublist _ _).nodup h1
    · exact nodup_keys_dset _ _ h1

theorem extract_key_congr {jd1 jd2 : JoinDefragmenter} (h : jd1.key = jd2.key)
    (p : Payload) : jd1.extract_key p = jd2.extract_key p := by
  unfold extract_key
  rw [h]

theorem cleanup_eq_of_nonpos (jd : JoinDefragmenter) (now : ℤ)
    (h : jd.max_age_s ≤ 0) : jd.cleanup now = jd := by
  unfold cleanup
  rw [if_pos h]

theorem push_fst_key (jd : JoinDefragmenter) (now : ℤ) (source : String)
    (payload : Payload) : ((jd.push now source payload).1).key = jd.key := by
  simp only [push]
  cases (jd.cleanup now).extract_key payload with
  | error e => exact cleanup_key jd now
  | ok k =>
    simp only
    split
    · exact cleanup_key jd now
    · exact cleanup_key jd now

theorem push_fst_sources (jd : JoinDefragmenter) (now : ℤ) (source : String)
    (payload : Payload) : ((jd.push now source payload).1).sources = jd.sources := by
  simp only [push]
  cases (jd.cleanup now).extract_key payload with
  | error e => exact cleanup_sources jd now
  | ok k =>
    simp only
    split
    · exact cleanup_sources jd now
    · exact cleanup_sources jd now

theorem push_fst_max_age (jd : JoinDefragmenter) (now : ℤ) (source : String)
    (payload : Payload) : ((jd.push now source payload).1).max_age_s = jd.max_age_s := by
  simp only [push]
  cases (jd.cleanup now).extract_key payload with
  | error e => exact cleanup_max_age jd now
  | ok k =>
    simp only
    split
    · exact cleanup_max_age jd now
    · exact cleanup_max_age jd now

theorem dget_cleanup_pending (jd : JoinDefragmenter) (now : ℤ) (k : JKey)
    (hnd : (jd.pending.map Prod.fst).Nodup) :
    dget (jd.cleanup now).pending k =
      match dget jd.pending k with
      | some v =>
        if jd.max_age_s ≤ 0 ∨ now - v.created_at ≤ jd.max_age_s then some v else none
      | none => none := by
  by_cases hle : jd.max_age_s ≤ 0
  · rw [cleanup_eq_of_nonpos _ _ hle]
    cases dget jd.pending k <;> simp [hle]
  · simp only [cleanup, if_neg hle]
    rw [dget_filter _ _ hnd]
    cases dget jd.pending k <;> simp [hle]

theorem push_noncomplete_fst (jd : JoinDefragmenter) (now : ℤ) (source : String)
    (p1 : Payload) (k : JKey) (hk : jd.extract_key p1 = .ok k)
    (hnc : (jd.push now source p1).2 = .ok []) :
    (jd.push now source p1).1 =
      { jd.cleanup now with
          pending := dset (jd.cleanup now).pending k
                       ⟨jd.entryCreatedAt now k, jd.partsAfter now source p1 k⟩ } := by
  rw [push_spec jd now source p1 k hk] at hnc ⊢
  by_cases hc : ((jd.cleanup now).sources.all
      fun s => dcontains (jd.partsAfter now source p1 k) s) = true
  · rw [if_pos hc] at hnc
    simp at hnc
  · rw [if_neg hc]

theorem partsAfter_duplicate (jd : JoinDefragmenter) (now1 now2 : ℤ)
    (source : String) (p1 p2 : Payload) (k : JKey)
    (hnd : (jd.pending.map Prod.fst).Nodup)
    (h12 : now1 ≤ now2)
    (hk1 : jd.extract_key p1 = .ok k)
    (hnc : (jd.push now1 source p1).2 = .ok []) :
    ((jd.push now1 source p1).1).partsAfter now2 source p2 k
      = jd.partsAfter now2 source p2 k := by
  rw [push_noncomplete_fst jd now1 source p1 k hk1 hnc]
  unfold partsAfter entryCreatedAt
  have hnd1 : ((jd.cleanup now1).pending.map Prod.fst).Nodup :=
    cleanup_pending_nodup jd now1 hnd
  have hnds : ((dset (jd.cleanup now1).pending k
      ⟨match dget (jd.cleanup now1).pending k with
        | some inf => inf.created_at
        | none => now1,
       dset (match dget (jd.cleanup now1).pending k with
             | some inf => inf.parts
             | none => []) source p1⟩).map Prod.fst).Nodup :=
    nodup_keys_dset _ _ hnd1
  rw [show ({ jd.cleanup now1 with
      pending := dset (jd.cleanup now1).pending k
        ⟨match dget (jd.cleanup now1).pending k with
          | some inf => inf.created_at
          | none => now1,
         dset (match dget (jd.cleanup now1).pending k with
               | some inf => inf.parts
               | none => []) source p1⟩ } : JoinDefragmenter).cleanup now2
    = cleanup { jd.cleanup now1 with
        pending := dset (jd.cleanup now1).pending k
          ⟨match dget (jd.cleanup now1).pending k with
            | some inf => inf.created_at
            | none => now1,
           dset (match dget (jd.cleanup now1).pending k with
                 | some inf => inf.parts
                 | none => []) source p1⟩ } now2 from rfl]
  rw [dget_cleanup_pending _ now2 k (by simpa [cleanup_max_age] using hnds),
    dget_cleanup_pending jd now2 k hnd]
  rw [dget_dset]
  rw [if_pos (rfl : k = k)]
  rw [dget_cleanup_pending jd now1 k hnd]
  cases hv : dget jd.pending k with
  | none =>
    simp only [cleanup_max_age]
    by_cases h2 : jd.max_age_s ≤ 0 ∨ now2 - now1 ≤ jd.max_age_s
    · rw [if_pos h2]
      exact dset_dset [] source p1 p2
    · rw [if_neg h2]
  | some v =>
    simp only [cleanup_max_age]
    by_cases h1 : jd.max_age_s ≤ 0 ∨ now1 - v.created_at ≤ jd.max_age_s
    · rw [if_pos h1]
      simp only
      by_cases h2 : jd.max_age_s ≤ 0 ∨ now2 - v.created_at ≤ jd.max_age_s
      · rw [if_pos h2, if_pos h2]
        exact dset_dset v.parts source p1 p2
      · rw [if_neg h2, if_neg h2]
    · rw [if_neg h1]
      simp only
      have h2 : ¬ (jd.max_age_s ≤ 0 ∨ now2 - v.created_at ≤ jd.max_age_s) := by
        push_neg at h1 ⊢
        exact ⟨h1.1, by omega⟩
      rw [if_neg h2]
      by_cases h3 : jd.max_age_s ≤ 0 ∨ now2 - now1 ≤ jd.max_age_s
      · rw [if_pos h3]
        exact dset_dset [] source p1 p2
      · rw [if_neg h3]

end JoinDefragmenter

/-! ## Claims -/

/-- Claim C1: for a multi-source join with declared sources and a join key
field, once every required source has contributed a fragment for a key,
the completing push emits exactly one merged payload; its key set is the
union of the key sets of the fragments, and a field contributed by
several sources takes its value from the source with the greatest
declaration index (overlay in declaration order, later sources win). -/
theorem join_complete_emits_single_overlay (jd : JoinDefragmenter) (now : ℤ)
    (source : String) (payload : Payload) (k : JKey)
    (hk : jd.extract_key payload = .ok k)
    (hwf : ∀ s ∈ jd.sources, ∀ p,
      dget (jd.partsAfter now source payload k) s = some p → (p.map Prod.fst).Nodup)
    (hall : (jd.sources.all
      fun s => dcontains (jd.partsAfter now source payload k) s) = true) :
    (jd.push now source payload).2 =
        .ok [buildMerge jd.sources (jd.partsAfter now source payload k)]
    ∧ (∀ f : String,
        dget (buildMerge jd.sources (jd.partsAfter now source payload k)) f ≠ none ↔
          ∃ s ∈ jd.sources, contribAt (jd.partsAfter now source payload k) s f ≠ none)
    ∧ (∀ f : String, ∀ i : Nat, ∀ hi : i < jd.sources.length, ∀ v : Val,
        contribAt (jd.partsAfter now source payload k) (jd.sources.get ⟨i, hi⟩) f
            = some v →
        (∀ j : Nat, ∀ hj : j < jd.sources.length, i < j →
          contribAt (jd.partsAfter now source payload k) (jd.sources.get ⟨j, hj⟩) f
            = none) →
        dget (buildMerge jd.sources (jd.partsAfter now source payload k)) f = some v) := by
  refine ⟨?_, ?_, ?_⟩
  · rw [JoinDefragmenter.push_spec jd now source payload k hk]
    rw [JoinDefragmenter.cleanup_sources]
    simp [hall]
  · intro f
    rw [dget_buildMerge _ _ _ hwf, foldl_olast_ne_none_iff]
    simp
  · intro f i hi v hv hafter
    rw [dget_buildMerge _ _ _ hwf]
    refine foldl_olast_last_some _ none i (by simpa using hi) v ?_ ?_
    · simpa [List.get_eq_getElem, List.getElem_map] using hv
    · intro j hj hlt
      have hj2 : j < jd.sources.length := by simpa using hj
      simpa [List.get_eq_getElem, List.getElem_map] using hafter j hj2 hlt

/-- Witness for C1: the enriched fragment completes the join of jdEx. -/
theorem join_complete_emits_single_overlay_witness :
    (jdEx.extract_key penr = .ok (.str "1"))
    ∧ ((jdEx.sources.all
        fun s => dcontains (jdEx.partsAfter 5 "enriched" penr (.str "1")) s) = true)
    ∧ ((jdEx.push 5 "enriched" penr).2 =
          .ok [buildMerge jdEx.sources (jdEx.partsAfter 5 "enriched" penr (.str "1"))]
      ∧ (∀ f : String,
          dget (buildMerge jdEx.sources (jdEx.partsAfter 5 "enriched" penr (.str "1"))) f
              ≠ none ↔
            ∃ s ∈ jdEx.sources,
              contribAt (jdEx.partsAfter 5 "enriched" penr (.str "1")) s f ≠ none)
      ∧ (∀ f : String, ∀ i : Nat, ∀ hi : i < jdEx.sources.length, ∀ v : Val,
          contribAt (jdEx.partsAfter 5 "enriched" penr (.str "1"))
              (jdEx.sources.get ⟨i, hi⟩) f = some v →
          (∀ j : Nat, ∀ hj : j < jdEx.sources.length, i < j →
            contribAt (jdEx.partsAfter 5 "enriched" penr (.str "1"))
                (jdEx.sources.get ⟨j, hj⟩) f = none) →
          dget (buildMerge jdEx.sources (jdEx.partsAfter 5 "enriched" penr (.str "1"))) f
              = some v)) := by
  have hk : jdEx.extract_key penr = .ok (.str "1") := by rfl
  have hparts : jdEx.partsAfter 5 "enriched" penr (.str "1")
      = [("raw", praw), ("enriched", penr)] := by rfl
  have hwf : ∀ s ∈ jdEx.sources, ∀ p,
      dget (jdEx.partsAfter 5 "enriched" penr (.str "1")) s = some p →
      (p.map Prod.fst).Nodup := by
    intro s hs p hp
    rw [hparts] at hp
    have hs2 : s = "raw" ∨ s = "enriched" := by
      simpa [jdEx] using hs
    rcases hs2 with rfl | rfl
    · have : p = praw := by simpa [dget] using hp.symm
      subst this
      decide
    · have : p = penr := by simpa [dget] using hp.symm
      subst this
      decide
  have hall : (jdEx.sources.all
      fun s => dcontains (jdEx.partsAfter 5 "enriched" penr (.str "1")) s) = true := by rfl
  exact ⟨hk, hall,
    join_complete_emits_single_overlay jdEx 5 "enriched" penr (.str "1") hk hwf hall⟩

/-- Claim C4: with a positive TTL, every entry surviving the cleanup run
at the start of a push is at most max_age_s old, so no push emits a
merged payload whose inflight entry was created more than max_age_s
before that push; after eviction a fresh fragment for the key starts a
new entry timestamped at its own arrival; with max_age_s ≤ 0 the cleanup
never evicts anything. -/
theorem ttl_bounds_inflight_age (jd : JoinDefragmenter) (now : ℤ)
    (source : String) (payload : Payload) (k : JKey)
    (hnd : (jd.pending.map Prod.fst).Nodup) :
    (0 < jd.max_age_s →
      (∀ k2 inf, dget (jd.cleanup now).pending k2 = some inf →
        now - inf.created_at ≤ jd.max_age_s)
      ∧ (jd.extract_key payload = .ok k →
          now - jd.entryCreatedAt now k ≤ jd.max_age_s)
      ∧ (jd.extract_key payload = .ok k →
          dget (jd.cleanup now).pending k = none →
          ∀ inf, dget (jd.push now source payload).1.pending k = some inf →
            inf.created_at = now))
    ∧ (jd.max_age_s ≤ 0 → jd.cleanup now = jd) := by
  constructor
  · intro hpos
    have hne : ¬ jd.max_age_s ≤ 0 := not_le.mpr hpos
    have hsurvive : ∀ k2 inf, dget (jd.cleanup now).pending k2 = some inf →
        now - inf.created_at ≤ jd.max_age_s := by
      intro k2 inf h
      simp only [JoinDefragmenter.cleanup, if_neg hne] at h
      rw [dget_filter _ _ hnd] at h
      cases hdg : dget jd.pending k2 with
      | none => rw [hdg] at h; exact absurd h (by simp)
      | some v =>
        rw [hdg] at h
        by_cases hp : now - v.created_at ≤ jd.max_age_s
        · have hv : v = inf := by simpa [hp] using h
          exact hv ▸ hp
        · simp [hp] at h
    refine ⟨hsurvive, ?_, ?_⟩
    · intro _
      unfold JoinDefragmenter.entryCreatedAt
      cases hdg : dget (jd.cleanup now).pending k with
      | none => simpa using hpos.le
      | some inf => exact hsurvive k inf hdg
    · intro hk hnone inf hget
      rw [JoinDefragmenter.push_spec jd now source payload k hk] at hget
      by_cases hc : ((jd.cleanup now).sources.all
          fun s => dcontains (jd.partsAfter now source payload k) s) = true
      · rw [if_pos hc] at hget
        have hcnd := JoinDefragmenter.cleanup_pending_nodup jd now hnd
        simp only at hget
        rw [dget_dpop_self _ hcnd] at hget
        exact absurd hget (by simp)
      · rw [if_neg hc] at hget
        simp only at hget
        rw [dget_dset] at hget
        simp only [if_pos rfl] at hget
        have : (⟨jd.entryCreatedAt now k, jd.partsAfter now source payload k⟩ : Inflight)
            = inf := by simpa using hget
        rw [← this]
        unfold JoinDefragmenter.entryCreatedAt
        rw [hnone]
  · intro h
    unfold JoinDefragmenter.cleanup
    rw [if_pos h]

/-- Witness for C4: the two-source defragmenter with one pending entry. -/
theorem ttl_bounds_inflight_age_witness :
    (jdEx.pending.map Prod.fst).Nodup
    ∧ ((0 < jdEx.max_age_s →
        (∀ k2 inf, dget (jdEx.cleanup 5).pending k2 = some inf →
          5 - inf.created_at ≤ jdEx.max_age_s)
        ∧ (jdEx.extract_key penr = .ok (.str "1") →
            5 - jdEx.entryCreatedAt 5 (.str "1") ≤ jdEx.max_age_s)
        ∧ (jdEx.extract_key penr = .ok (.str "1") →
            dget (jdEx.cleanup 5).pending (.str "1") = none →
            ∀ inf, dget (jdEx.push 5 "enriched" penr).1.pending (.str "1") = some inf →
              inf.created_at = 5))
      ∧ (jdEx.max_age_s ≤ 0 → jdEx.cleanup 5 = jdEx)) := by
  have hnd : (jdEx.pending.map Prod.fst).Nodup := by decide
  exact ⟨hnd, ttl_bounds_inflight_age jdEx 5 "enriched" penr (.str "1") hnd⟩

/-- Claim C10: a push whose payload omits the join-key field, maps it to
None, or maps it to a non-hashable shape (a list or a mapping) raises
and returns the state exactly as the initial TTL cleanup left it: a
failing push never creates or modifies an inflight entry, and a None
value is indistinguishable from an absent key (both raise the missing-key
error with the same resulting state). -/
theorem push_key_errors_leave_state (jd : JoinDefragmenter) (now : ℤ)
    (source : String) (payload : Payload) :
    (dget payload jd.key = none →
      jd.push now source payload = (jd.cleanup now, .error .missingKey))
    ∧ (dget payload jd.key = some .nil →
      jd.push now source payload = (jd.cleanup now, .error .missingKey))
    ∧ (∀ xs, dget payload jd.key = some (.arr xs) →
      jd.push now source payload = (jd.cleanup now, .error .badKeyType))
    ∧ (∀ es, dget payload jd.key = some (.map es) →
      jd.push now source payload = (jd.cleanup now, .error .badKeyType)) := by
  refine ⟨fun h => ?_, fun h => ?_, fun xs h => ?_, fun es h => ?_⟩ <;>
    simp only [JoinDefragmenter.push, JoinDefragmenter.extract_key,
      JoinDefragmenter.cleanup_key, h]

/-- Witness for C10: a payload without the key field and one mapping the
key field to None both fail with the missing-key error and the cleaned
state. -/
theorem push_key_errors_leave_state_witness :
    dget pm jdEx.key = none
    ∧ jdEx.push 5 "raw" pm = (jdEx.cleanup 5, .error .missingKey)
    ∧ dget [("msg_uuid", Val.nil)] jdEx.key = some .nil
    ∧ jdEx.push 5 "raw" [("msg_uuid", Val.nil)] = (jdEx.cleanup 5, .error .missingKey) := by
  have h1 : dget pm jdEx.key = none := by rfl
  have h2 : dget [("msg_uuid", Val.nil)] jdEx.key = some .nil := by rfl
  exact ⟨h1, (push_key_errors_leave_state jdEx 5 "raw" pm).1 h1,
    h2, (push_key_errors_leave_state jdEx 5 "raw" [("msg_uuid", Val.nil)]).2.1 h2⟩

/-- Counterexample for C6: after a non-completing push at time 0 and a
duplicate push for the same source and key at time 5, the defragmenter
state is NOT equal to the state obtained by pushing only the later
fragment at time 5 — the retained inflight entry keeps the creation time
of the first fragment (0), while the single push creates it at 5. -/
theorem duplicate_push_created_at_differs :
    ((jdEmpty.push 0 "raw" praw).2 = .ok [])
    ∧ (((jdEmpty.push 0 "raw" praw).1.push 5 "raw" praw2).1.pending.map
        (fun kv => kv.2.created_at) = [0])
    ∧ ((jdEmpty.push 5 "raw" praw2).1.pending.map (fun kv => kv.2.created_at) = [5])
    ∧ ((jdEmpty.push 0 "raw" praw).1.push 5 "raw" praw2).1
        ≠ (jdEmpty.push 5 "raw" praw2).1 := by
  refine ⟨by rfl, by rfl, by rfl, fun h => ?_⟩
  have h2 := congrArg
    (fun st : JoinDefragmenter => st.pending.map fun kv => kv.2.created_at) h
  exact absurd h2 (by decide)

/-- Claim C6 amended: if a push for a (source, key) pair does not complete
the join, a later push for the same pair overwrites the stored fragment:
the parts of the inflight entry (and the emitted payloads) are the same
as if only the later fragment had been pushed, the source slot holds the
later fragment, and a completing push emits at most one merged payload —
but the retained entry keeps the creation time of the first fragment, so
the full states need not be equal. -/
theorem duplicate_fragment_last_wins (jd : JoinDefragmenter) (now1 now2 : ℤ)
    (source : String) (p1 p2 : Payload) (k : JKey)
    (hnd : (jd.pending.map Prod.fst).Nodup)
    (h12 : now1 ≤ now2)
    (hk1 : jd.extract_key p1 = .ok k)
    (hk2 : jd.extract_key p2 = .ok k)
    (hnc : (jd.push now1 source p1).2 = .ok []) :
    (dget ((jd.push now1 source p1).1.push now2 source p2).1.pending k).map
        Inflight.parts
      = (dget ((jd.push now2 source p2).1).pending k).map Inflight.parts
    ∧ ((jd.push now1 source p1).1.push now2 source p2).2 = (jd.push now2 source p2).2
    ∧ dget ((jd.push now1 source p1).1.partsAfter now2 source p2 k) source = some p2
    ∧ (∀ l, ((jd.push now1 source p1).1.push now2 source p2).2 = .ok l →
        l = [] ∨ ∃ m, l = [m]) := by
  have hnd1 : (((jd.push now1 source p1).1).pending.map Prod.fst).Nodup :=
    JoinDefragmenter.push_preserves_nodup jd now1 source p1 hnd
  have hkey : ((jd.push now1 source p1).1).key = jd.key :=
    JoinDefragmenter.push_fst_key jd now1 source p1
  have hk2b : ((jd.push now1 source p1).1).extract_key p2 = .ok k := by
    rw [JoinDefragmenter.extract_key_congr hkey p2]
    exact hk2
  have hPA := JoinDefragmenter.partsAfter_duplicate jd now1 now2 source p1 p2 k
    hnd h12 hk1 hnc
  have hsrc : ((jd.push now1 source p1).1).sources = jd.sources :=
    JoinDefragmenter.push_fst_sources jd now1 source p1
  have hself : dget (jd.partsAfter now2 source p2 k) source = some p2 := by
    unfold JoinDefragmenter.partsAfter
    rw [dget_dset]
    exact if_pos rfl
  rw [JoinDefragmenter.push_spec _ now2 source p2 k hk2b,
    JoinDefragmenter.push_spec jd now2 source p2 k hk2]
  rw [JoinDefragmenter.cleanup_sources, JoinDefragmenter.cleanup_sources,
    hsrc, hPA]
  by_cases hc : (jd.sources.all
      fun s => dcontains (jd.partsAfter now2 source p2 k) s) = true
  · rw [if_pos hc, if_pos hc]
    have hd1 : dget (dpop (((jd.push now1 source p1).1).cleanup now2).pending k) k
        = none :=
      dget_dpop_self k (JoinDefragmenter.cleanup_pending_nodup _ now2 hnd1)
    have hd2 : dget (dpop (jd.cleanup now2).pending k) k = none :=
      dget_dpop_self k (JoinDefragmenter.cleanup_pending_nodup jd now2 hnd)
    refine ⟨?_, rfl, hself, ?_⟩
    · simp only [hd1, hd2, Option.map_none]
    · intro l hl
      right
      exact ⟨_, (by simpa using hl.symm)⟩
  · rw [if_neg hc, if_neg hc]
    refine ⟨?_, rfl, hself, ?_⟩
    · simp [dget_dset]
    · intro l hl
      left
      simpa using hl.symm

/-- Witness for C6 amended: duplicate raw fragments for key 1 on the
empty two-source defragmenter. -/
theorem duplicate_fragment_last_wins_witness :
    (jdEmpty.pending.map Prod.fst).Nodup
    ∧ (0 : ℤ) ≤ 5
    ∧ jdEmpty.extract_key praw = .ok (.str "1")
    ∧ jdEmpty.extract_key praw2 = .ok (.str "1")
    ∧ (jdEmpty.push 0 "raw" praw).2 = .ok []
    ∧ ((dget ((jdEmpty.push 0 "raw" praw).1.push 5 "raw" praw2).1.pending
          (.str "1")).map Inflight.parts
        = (dget ((jdEmpty.push 5 "raw" praw2).1).pending (.str "1")).map Inflight.parts
      ∧ ((jdEmpty.push 0 "raw" praw).1.push 5 "raw" praw2).2
          = (jdEmpty.push 5 "raw" praw2).2
      ∧ dget ((jdEmpty.push 0 "raw" praw).1.partsAfter 5 "raw" praw2 (.str "1")) "raw"
          = some praw2
      ∧ (∀ l, ((jdEmpty.push 0 "raw" praw).1.push 5 "raw" praw2).2 = .ok l →
          l = [] ∨ ∃ m, l = [m])) := by
  have hnd : (jdEmpty.pending.map Prod.fst).Nodup := by decide
  have h12 : (0 : ℤ) ≤ 5 := by decide
  have hk1 : jdEmpty.extract_key praw = .ok (.str "1") := by rfl
  have hk2 : jdEmpty.extract_key praw2 = .ok (.str "1") := by rfl
  have hnc : (jdEmpty.push 0 "raw" praw).2 = .ok [] := by rfl
  exact ⟨hnd, h12, hk1, hk2, hnc,
    duplicate_fragment_last_wins jdEmpty 0 5 "raw" praw praw2 (.str "1")
      hnd h12 hk1 hk2 hnc⟩

/-- Claim C3: a single-source pipeline instantiates no join defragmenter,
and a frame that decodes, coerces and passes the validator triggers
exactly one callback invocation carrying the validated value, immediately
and with the pipeline state unchanged — no buffering happens. -/
theorem single_source_dispatch_immediate {T : Type}
    (sources : List (String × List String)) (validator : Payload → Except VErr T)
    (callback : T → Except CErr Unit) (key : KeyArg) (p : JoinPipeline T)
    (hone : sources.length = 1)
    (hmk : mkJoinPipeline sources validator callback key = .ok p)
    (source : String) (now : ℤ) (entries : List (Val × Val)) (pd : Payload) (t : T)
    (hco : coerceStrict entries [] = .ok pd)
    (hv : p.validator pd = .ok t) :
    p.join = none
    ∧ (handler p source now (.ok (.map entries))).1 = p
    ∧ ((handler p source now (.ok (.map entries))).2.filter Ev.isCb) = [Ev.cb t] := by
  have hjoin : p.join = none := by
    unfold mkJoinPipeline at hmk
    by_cases he : sources.isEmpty
    · rw [if_pos he] at hmk
      exact absurd hmk (by simp)
    · rw [if_neg he] at hmk
      cases htv : (sources.all fun sp => sp.2.all fun t2 => (validate_topic t2).isSome) with
      | false =>
        rw [htv] at hmk
        simp at hmk
      | true =>
        rw [htv] at hmk
        simp only [Bool.not_true, Bool.false_eq_true, if_false] at hmk
        rw [if_pos hone] at hmk
        cases key with
        | nonstr => simp at hmk
        | none =>
          simp only [Except.ok.injEq] at hmk
          rw [← hmk]
        | str s =>
          simp only [Except.ok.injEq] at hmk
          rw [← hmk]
  refine ⟨hjoin, ?_, ?_⟩
  · simp only [handler, hco, hv, hjoin]
  · simp only [handler, hco, hv, hjoin]
    cases p.callback t <;> simp [Ev.isCb]

/-- Witness for C3: the passthrough pipeline delivers one frame. -/
theorem single_source_dispatch_immediate_witness :
    ([("source", ["nats://localhost:4222/foo"])] : List (String × List String)).length = 1
    ∧ mkJoinPipeline [("source", ["nats://localhost:4222/foo"])] valId cbOk .none
        = .ok pSingle
    ∧ coerceStrict [(.str "a", .int 7)] [] = .ok [("a", .int 7)]
    ∧ pSingle.validator [("a", .int 7)] = .ok [("a", .int 7)]
    ∧ (pSingle.join = none
      ∧ (handler pSingle "source" 0 (.ok (.map [(.str "a", .int 7)]))).1 = pSingle
      ∧ ((handler pSingle "source" 0 (.ok (.map [(.str "a", .int 7)]))).2.filter Ev.isCb)
          = [Ev.cb [("a", .int 7)]]) := by
  have hone : ([("source", ["nats://localhost:4222/foo"])] :
      List (String × List String)).length = 1 := by rfl
  have hmk : mkJoinPipeline [("source", ["nats://localhost:4222/foo"])] valId cbOk .none
      = .ok pSingle := by rfl
  have hco : coerceStrict [(.str "a", .int 7)] [] = .ok [("a", .int 7)] := by rfl
  have hv : pSingle.validator [("a", .int 7)] = .ok [("a", .int 7)] := by rfl
  exact ⟨hone, hmk, hco, hv,
    single_source_dispatch_immediate _ valId cbOk .none pSingle hone hmk
      "source" 0 _ _ _ hco hv⟩

/-- Claim C5: a frame that fails msgpack decode, is not a mapping, fails
key coercion, or is rejected by the validator produces zero callback
invocations, and the handler returns normally with only a log event —
recognized validation errors warn, everything else (including an
exception raised by the user callback) is swallowed by the outer except
with an error log, so a single bad message never terminates the
pipeline. -/
theorem bad_message_never_reaches_callback {T : Type} (p : JoinPipeline T)
    (source : String) (now : ℤ) :
    (∀ e, handler p source now (.error e) = (p, [.errlog]))
    ∧ (∀ raw : Val, isMapVal raw = false →
        handler p source now (.ok raw) = (p, [.errlog]))
    ∧ (∀ entries, coerceStrict entries [] = .error () →
        handler p source now (.ok (.map entries)) = (p, [.errlog]))
    ∧ (∀ entries pd, coerceStrict entries [] = .ok pd →
        p.validator pd = .error .recognized →
        handler p source now (.ok (.map entries)) = (p, [.warn]))
    ∧ (∀ entries pd, coerceStrict entries [] = .ok pd →
        p.validator pd = .error .unexpected →
        handler p source now (.ok (.map entries)) = (p, [.errlog]))
    ∧ (∀ entries pd t e, coerceStrict entries [] = .ok pd →
        p.validator pd = .ok t → p.join = none → p.callback t = .error e →
        handler p source now (.ok (.map entries)) = (p, [.cb t, .errlog])) := by
  refine ⟨fun e => rfl, ?_, ?_, ?_, ?_, ?_⟩
  · intro raw hraw
    cases raw
    all_goals first
    | rfl
    | simp [isMapVal] at hraw
  · intro entries hco
    simp [handler, hco]
  · intro entries pd hco hv
    simp [handler, hco, hv]
  · intro entries pd hco hv
    simp [handler, hco, hv]
  · intro entries pd t e hco hv hj hcb
    simp [handler, hco, hv, hj, hcb]

/-- Witness for C5: a non-mapping frame, a non-text key, a rejected
payload and a failing callback each leave the pipeline alive with no
callback invocation (except the one whose own failure is swallowed). -/
theorem bad_message_never_reaches_callback_witness :
    isMapVal (.arr []) = false
    ∧ coerceStrict [(.int 1, .int 2)] [] = .error ()
    ∧ coerceStrict [(.str "bad", .int 1)] [] = .ok [("bad", .int 1)]
    ∧ pReject.validator [("bad", .int 1)] = .error .recognized
    ∧ handler pReject "source" 0 (.ok (.arr [])) = (pReject, [.errlog])
    ∧ handler pReject "source" 0 (.ok (.map [(.int 1, .int 2)])) = (pReject, [.errlog])
    ∧ handler pReject "source" 0 (.ok (.map [(.str "bad", .int 1)]))
        = (pReject, [.warn]) := by
  have h1 : isMapVal (.arr []) = false := by rfl
  have h2 : coerceStrict [(.int 1, .int 2)] [] = .error () := by rfl
  have h3 : coerceStrict [(.str "bad", .int 1)] [] = .ok [("bad", .int 1)] := by rfl
  have h4 : pReject.validator [("bad", .int 1)] = .error .recognized := by rfl
  refine ⟨h1, h2, h3, h4, ?_, ?_, ?_⟩
  · exact (bad_message_never_reaches_callback pReject "source" 0).2.1 _ h1
  · exact (bad_message_never_reaches_callback pReject "source" 0).2.2.1 _ h2
  · exact (bad_message_never_reaches_callback pReject "source" 0).2.2.2.1 _ _ h3 h4

/-- Counterexample for C2: in a multi-source pipeline a decodable fragment
rejected by the validator is dropped BEFORE the join: the handler returns
with only a warning and the join state untouched (no inflight entry is
created for the fragment key), refuting the claim that the validator is
never applied to individual fragments and that fragments are dropped
before the join only for decode or coercion failures. -/
theorem fragment_validator_rejection_drops_before_join :
    handler pJoin "raw" 0
        (.ok (.map [(.str "msg_uuid", .str "1"), (.str "bad", .int 1)]))
      = (pJoin, [.warn])
    ∧ (handler pJoin "raw" 0
        (.ok (.map [(.str "msg_uuid", .str "1"), (.str "bad", .int 1)]))).1.join
      = some jdEmpty
    ∧ jdEmpty.pending = [] :=
  ⟨rfl, rfl, rfl⟩

/-- Claim C2 amended: multi-source per-message handling validates every
decoded fragment first: a fragment rejected with a recognized error class
is dropped before the join, with a warning and the join state unchanged;
when fragment validation succeeds, the raw coerced dict (not the
validated value) is pushed into the defragmenter, and every callback
invocation of the merged loop carries the validator applied to a
completed merged payload. -/
theorem validator_runs_on_fragments_then_merged {T : Type} (p : JoinPipeline T)
    (jd : JoinDefragmenter) (hj : p.join = some jd)
    (source : String) (now : ℤ) (entries : List (Val × Val)) (pd : Payload)
    (hco : coerceStrict entries [] = .ok pd) :
    (p.validator pd = .error .recognized →
      handler p source now (.ok (.map entries)) = (p, [.warn]))
    ∧ (∀ t, p.validator pd = .ok t →
        (handler p source now (.ok (.map entries))).1
          = { p with join := some (jd.push now source pd).1 }
        ∧ (∀ r, (jd.push now source pd).2 = .ok r →
            (handler p source now (.ok (.map entries))).2 = mergedLoop p r))
    ∧ (∀ r : List Payload, ∀ u,
        Ev.cb u ∈ mergedLoop p r → ∃ m ∈ r, p.validator m = .ok u) := by
  refine ⟨?_, ?_, ?_⟩
  · intro hv
    simp [handler, hco, hv]
  · intro t hv
    constructor
    · simp only [handler, hco, hv, hj]
      cases hp : jd.push now source pd with
      | mk jd2 res =>
        cases res <;> simp
    · intro r hr
      simp only [handler, hco, hv, hj]
      cases hp : jd.push now source pd with
      | mk jd2 res =>
        have : res = .ok r := by rw [hp] at hr; exact hr
        subst this
        simp
  · intro r
    induction r with
    | nil =>
      intro u hu
      simp [mergedLoop] at hu
    | cons m rest ih =>
      intro u hu
      cases hvm : p.validator m with
      | error e =>
        cases e with
        | recognized =>
          simp only [mergedLoop, hvm] at hu
          rcases List.mem_cons.1 hu with h | h
          · exact absurd h (by simp)
          · obtain ⟨m2, hm2, h2⟩ := ih u h
            exact ⟨m2, List.mem_cons_of_mem _ hm2, h2⟩
        | unexpected =>
          simp only [mergedLoop, hvm] at hu
          simp at hu
      | ok t =>
        simp only [mergedLoop, hvm] at hu
        rcases List.mem_cons.1 hu with h | h
        · have : u = t := by simpa using h
          exact ⟨m, List.mem_cons_self m rest, by rw [hvm, this]⟩
        · cases hcb : p.callback t with
          | ok _ =>
            rw [hcb] at h
            obtain ⟨m2, hm2, h2⟩ := ih u h
            exact ⟨m2, List.mem_cons_of_mem _ hm2, h2⟩
          | error e2 =>
            cases e2 with
            | recognized =>
              rw [hcb] at h
              rcases List.mem_cons.1 h with h3 | h3
              · exact absurd h3 (by simp)
              · obtain ⟨m2, hm2, h2⟩ := ih u h3
                exact ⟨m2, List.mem_cons_of_mem _ hm2, h2⟩
            | unexpected =>
              rw [hcb] at h
              simp at h

/-- Witness for C2 amended: a passing fragment is pushed as the raw
coerced dict and the rejected fragment is dropped with a warning. -/
theorem validator_runs_on_fragments_then_merged_witness :
    pJoin.join = some jdEmpty
    ∧ coerceStrict [(.str "msg_uuid", .str "1"), (.str "x", .int 1)] []
        = .ok [("msg_uuid", .str "1"), ("x", .int 1)]
    ∧ ((pJoin.validator [("msg_uuid", .str "1"), ("x", .int 1)]
          = .error .recognized →
        handler pJoin "raw" 0
            (.ok (.map [(.str "msg_uuid", .str "1"), (.str "x", .int 1)]))
          = (pJoin, [.warn]))
      ∧ (∀ t, pJoin.validator [("msg_uuid", .str "1"), ("x", .int 1)] = .ok t →
          (handler pJoin "raw" 0
              (.ok (.map [(.str "msg_uuid", .str "1"), (.str "x", .int 1)]))).1
            = { pJoin with
                join := some (jdEmpty.push 0 "raw"
                          [("msg_uuid", .str "1"), ("x", .int 1)]).1 }
          ∧ (∀ r, (jdEmpty.push 0 "raw"
                [("msg_uuid", .str "1"), ("x", .int 1)]).2 = .ok r →
              (handler pJoin "raw" 0
                  (.ok (.map [(.str "msg_uuid", .str "1"), (.str "x", .int 1)]))).2
                = mergedLoop pJoin r))
      ∧ (∀ r : List Payload, ∀ u,
          Ev.cb u ∈ mergedLoop pJoin r → ∃ m ∈ r, pJoin.validator m = .ok u)) := by
  have hj : pJoin.join = some jdEmpty := by rfl
  have hco : coerceStrict [(.str "msg_uuid", .str "1"), (.str "x", .int 1)] []
      = .ok [("msg_uuid", .str "1"), ("x", .int 1)] := by rfl
  exact ⟨hj, hco,
    validator_runs_on_fragments_then_merged pJoin jdEmpty hj "raw" 0 _ _ hco⟩

/-- A non-empty character list makes a non-empty string. -/
theorem stringMk_ne_empty {l : List Char} (h : ¬ l.isEmpty = true) :
    String.mk l ≠ "" := by
  intro he
  apply h
  have hl : l = [] := congrArg String.data he
  simp [hl]

/-- Counterexample for C7: validate_topic accepts a URL whose subject is
empty — the non-empty-subject requirement is not part of parsing, it is
enforced only later by subject_from_topic, which rejects this topic. -/
theorem validate_topic_accepts_empty_subject :
    validate_topic "nats://localhost:4222"
      = some { scheme := "nats", host := "localhost", port := some 4222, path := none }
    ∧ subject_from_topic
        { scheme := "nats", host := "localhost", port := some 4222, path := none }
      = .error () :=
  ⟨rfl, rfl⟩

/-- Claim C7 amended: validate_topic accepts an input exactly when it
parses as a URL (which requires a non-empty host) with scheme nats; the
subject may be empty at parse time, and the non-empty-subject invariant
is enforced separately by subject_from_topic, which succeeds exactly when
the path stripped of leading slashes is non-empty. -/
theorem validate_topic_checks_scheme_and_host (s : String) (u : Url) :
    ((validate_topic s).isSome ↔ ∃ u2, parseUrl s = some u2 ∧ u2.scheme = "nats")
    ∧ (parseUrl s = some u → u.host ≠ "")
    ∧ ((∃ t, subject_from_topic u = .ok t) ↔
        (u.path.getD "").toList.dropWhile (fun c => c = '/') ≠ []) := by
  refine ⟨?_, ?_, ?_⟩
  · unfold validate_topic
    cases hp : parseUrl s with
    | none => simp
    | some u2 =>
      by_cases hs : u2.scheme = "nats" <;> simp [hs]
  · intro hp
    unfold parseUrl at hp
    cases hsp : splitScheme s.toList with
    | none =>
      rw [hsp] at hp
      exact absurd hp (by simp)
    | some pr =>
      obtain ⟨sch, rest⟩ := pr
      rw [hsp] at hp
      by_cases hse : sch.isEmpty
      · simp [hse] at hp
      · simp only [if_neg hse] at hp
        by_cases hhe : (splitPort (splitAuthority rest).1).1.isEmpty
        · simp [hhe] at hp
        · simp only [if_neg hhe] at hp
          cases hpp : (splitPort (splitAuthority rest).1).2 with
          | none =>
            rw [hpp] at hp
            have hu : u.host = String.mk (splitPort (splitAuthority rest).1).1 := by
              have := (Option.some.inj hp).symm
              rw [this]
            rw [hu]
            exact stringMk_ne_empty hhe
          | some pcs =>
            rw [hpp] at hp
            simp only [] at hp
            cases hdn : digitsToNat pcs with
            | none =>
              rw [hdn] at hp
              exact absurd hp (by simp)
            | some n =>
              rw [hdn] at hp
              have hu : u.host = String.mk (splitPort (splitAuthority rest).1).1 := by
                have := (Option.some.inj hp).symm
                rw [this]
              rw [hu]
              exact stringMk_ne_empty hhe
  · unfold subject_from_topic
    by_cases hd : (u.path.getD "").toList.dropWhile (fun c => c = '/') = []
    · rw [hd]
      simp
    · have : String.mk ((u.path.getD "").toList.dropWhile (fun c => c = '/')) ≠ "" :=
        stringMk_ne_empty (by simpa using hd)
      simp only [if_neg this]
      exact ⟨fun _ => hd, fun _ => ⟨_, rfl⟩⟩

/-- Witness for C7 amended: a full topic with subject foo. -/
theorem validate_topic_checks_scheme_and_host_witness :
    parseUrl "nats://localhost:4222/foo"
      = some { scheme := "nats", host := "localhost", port := some 4222,
               path := some "/foo" }
    ∧ (((validate_topic "nats://localhost:4222/foo").isSome ↔
        ∃ u2, parseUrl "nats://localhost:4222/foo" = some u2 ∧ u2.scheme = "nats")
      ∧ (parseUrl "nats://localhost:4222/foo"
          = some { scheme := "nats", host := "localhost", port := some 4222,
                   path := some "/foo" } →
        ({ scheme := "nats", host := "localhost", port := some 4222,
           path := some "/foo" } : Url).host ≠ "")
      ∧ ((∃ t, subject_from_topic
            { scheme := "nats", host := "localhost", port := some 4222,
              path := some "/foo" } = .ok t) ↔
          ((({ scheme := "nats", host := "localhost", port := some 4222,
               path := some "/foo" } : Url).path.getD "").toList.dropWhile
            (fun c => c = '/')) ≠ [])) := by
  have hp : parseUrl "nats://localhost:4222/foo"
      = some { scheme := "nats", host := "localhost", port := some 4222,
               path := some "/foo" } := by rfl
  exact ⟨hp, validate_topic_checks_scheme_and_host "nats://localhost:4222/foo" _⟩

theorem coerce_str_isOk (k : Val) : (coerce_str k).isOk = keyStrOrUtf8 k := by
  cases k with
  | bytes bs => cases h : utf8Decode bs <;> simp [coerce_str, keyStrOrUtf8, h, Except.isOk, Except.toBool]
  | nil => rfl
  | bool b => rfl
  | int n => rfl
  | float q => rfl
  | str s => rfl
  | arr xs => rfl
  | map es => rfl

/-- Counterexample for C8: a frame whose mapping has the UTF-8 byte key
b"a" is rejected at the pipeline decode boundary — the inline coercion of
the handler raises and the frame is dropped with an error log — even
though the standalone coerce_mapping helper decodes it to the text key a.
Byte-string keys ARE a reason for rejection at the pipeline boundary. -/
theorem pipeline_rejects_bytes_key :
    coerceStrict [(.bytes [97], .int 1)] [] = .error ()
    ∧ handler pSingle "source" 0 (.ok (.map [(.bytes [97], .int 1)]))
        = (pSingle, [.errlog])
    ∧ coerce_mapping (.map [(.bytes [97], .int 1)]) = .ok [("a", .int 1)] :=
  ⟨rfl, rfl, rfl⟩

/-- Claim C8 amended: the pipeline decode boundary accepts only mappings
whose keys are all already text strings — any non-text key, including a
byte string, fails the inline coercion and the frame is dropped with an
error log; the standalone coerce_mapping helper (which the pipeline does
not use) implements the spec behaviour: it succeeds exactly when every
key is a text string or UTF-8-decodable byte string, normalizing byte
keys to text, and a non-mapping value fails as not-a-mapping. -/
theorem pipeline_coercion_str_keys_only {T : Type} (p : JoinPipeline T)
    (source : String) (now : ℤ) :
    (∀ entries acc, (entries.all fun kv => keyIsStr kv.1) = false →
        coerceStrict entries acc = .error ())
    ∧ (∀ entries, coerceStrict entries [] = .error () →
        handler p source now (.ok (.map entries)) = (p, [.errlog]))
    ∧ (∀ v : Val, isMapVal v = false → coerce_mapping v = .error .notAMapping)
    ∧ (∀ entries acc, (coerceEntries entries acc).isOk
        = (entries.all fun kv => keyStrOrUtf8 kv.1))
    ∧ (∀ bs v s, utf8Decode bs = some s →
        coerce_mapping (.map [(.bytes bs, v)]) = .ok [(s, v)]) := by
  refine ⟨?_, ?_, ?_, ?_, ?_⟩
  · intro entries
    induction entries with
    | nil =>
      intro acc h
      simp at h
    | cons kv rest ih =>
      intro acc h
      obtain ⟨k, v⟩ := kv
      cases k with
      | str s =>
        have h2 : (rest.all fun kv => keyIsStr kv.1) = false := by
          simpa [keyIsStr] using h
        exact ih _ h2
      | nil => rfl
      | bool b => rfl
      | int n => rfl
      | float q => rfl
      | bytes bs => rfl
      | arr xs => rfl
      | map es => rfl
  · intro entries hco
    simp [handler, hco]
  · intro v hv
    cases v
    all_goals first
    | rfl
    | simp [isMapVal] at hv
  · intro entries
    induction entries with
    | nil =>
      intro acc
      simp [coerceEntries, Except.isOk, Except.toBool]
    | cons kv rest ih =>
      intro acc
      obtain ⟨k, v⟩ := kv
      simp only [coerceEntries, List.all_cons]
      cases hk : coerce_str k with
      | ok s =>
        have : keyStrOrUtf8 k = true := by rw [← coerce_str_isOk, hk]; rfl
        simp [this, ih]
      | error e =>
        have : keyStrOrUtf8 k = false := by rw [← coerce_str_isOk, hk]; rfl
        simp [this, Except.isOk, Except.toBool]
  · intro bs v s hs
    simp [coerce_mapping, coerceEntries, coerce_str, hs, dset]

/-- Witness for C8 amended: a mapping with an integer key fails both
coercions, and the byte key b"a" is normalized by coerce_mapping. -/
theorem pipeline_coercion_str_keys_only_witness :
    ((([(Val.int 1, Val.int 2)] : List (Val × Val)).all fun kv => keyIsStr kv.1)
        = false)
    ∧ coerceStrict [(.int 1, .int 2)] [] = .error ()
    ∧ handler pSingle "source" 0 (.ok (.map [(.int 1, .int 2)])) = (pSingle, [.errlog])
    ∧ isMapVal (.int 3) = false
    ∧ coerce_mapping (.int 3) = .error .notAMapping
    ∧ utf8Decode [97] = some "a"
    ∧ coerce_mapping (.map [(.bytes [97], .int 9)]) = .ok [("a", .int 9)] := by
  have h1 : (([(Val.int 1, Val.int 2)] : List (Val × Val)).all
      fun kv => keyIsStr kv.1) = false := by rfl
  have h2 : coerceStrict [(.int 1, .int 2)] [] = .error () :=
    (pipeline_coercion_str_keys_only pSingle "source" 0).1 _ _ h1
  have h4 : isMapVal (.int 3) = false := by rfl
  have h6 : utf8Decode [97] = some "a" := by rfl
  exact ⟨h1, h2,
    (pipeline_coercion_str_keys_only pSingle "source" 0).2.1 _ h2,
    h4,
    (pipeline_coercion_str_keys_only pSingle "source" 0).2.2.1 _ h4,
    h6,
    (pipeline_coercion_str_keys_only pSingle "source" 0).2.2.2.2 [97] (.int 9) "a" h6⟩

/-- Claim C9: declaring more than one subject — more than one positional
topic, or more than one named source — without a key (or with a
non-string key) fails immediately at registration, before any topic is
validated; declaring exactly one subject (one positional topic, or one
named source) registers successfully without a key. -/
theorem multi_subject_requires_key {T : Type}
    (validator : Payload → Except VErr T) (callback : T → Except CErr Unit)
    (topics : List String) (sources : List (String × List String)) :
    (2 ≤ topics.length → sources = [] →
      subscribe_register topics sources validator callback .none = .error .keyRequired
      ∧ subscribe_register topics sources validator callback .nonstr
          = .error .keyNotString)
    ∧ (2 ≤ sources.length → topics = [] →
      subscribe_register topics sources validator callback .none = .error .keyRequired
      ∧ subscribe_register topics sources validator callback .nonstr
          = .error .keyNotString)
    ∧ (∀ t, topics = [t] → sources = [] → (validate_topic t).isSome = true →
      (subscribe_register topics sources validator callback .none).isOk = true)
    ∧ (∀ name ts, topics = [] → sources = [(name, ts)] →
        (ts.all fun t => (validate_topic t).isSome) = true →
      (subscribe_register topics sources validator callback .none).isOk = true) := by
  refine ⟨?_, ?_, ?_, ?_⟩
  · intro hlen hs
    subst hs
    have hne : topics.isEmpty = false := by
      cases topics with
      | nil => simp at hlen
      | cons a t => rfl
    have hgt : topics.length > 1 := hlen
    constructor <;> simp [subscribe_register, hne, hgt]
  · intro hlen ht
    subst ht
    have hne : sources.isEmpty = false := by
      cases sources with
      | nil => simp at hlen
      | cons a t => rfl
    have hgt : sources.length > 1 := hlen
    constructor <;> simp [subscribe_register, hne, hgt]
  · intro t ht hs hv
    subst ht
    subst hs
    simp [subscribe_register, mkJoinPipeline, hv, Except.isOk, Except.toBool]
  · intro name ts ht hs hv
    subst ht
    subst hs
    simp [subscribe_register, mkJoinPipeline, hv, Except.isOk, Except.toBool]

/-- Witness for C9: two positional topics without a key fail, one topic
registers without a key. -/
theorem multi_subject_requires_key_witness :
    2 ≤ (["nats://localhost:4222/a", "nats://localhost:4222/b"] : List String).length
    ∧ subscribe_register ["nats://localhost:4222/a", "nats://localhost:4222/b"] []
        valId cbOk .none = .error .keyRequired
    ∧ subscribe_register ["nats://localhost:4222/a", "nats://localhost:4222/b"] []
        valId cbOk .nonstr = .error .keyNotString
    ∧ (validate_topic "nats://localhost:4222/a").isSome = true
    ∧ (subscribe_register ["nats://localhost:4222/a"] [] valId cbOk .none).isOk
        = true := by
  have hlen : 2 ≤ (["nats://localhost:4222/a", "nats://localhost:4222/b"] :
      List String).length := by decide
  have hv : (validate_topic "nats://localhost:4222/a").isSome = true := by rfl
  have hpair := (multi_subject_requires_key valId cbOk
    ["nats://localhost:4222/a", "nats://localhost:4222/b"] []).1 hlen rfl
  exact ⟨hlen, hpair.1, hpair.2, hv,
    (multi_subject_requires_key valId cbOk ["nats://localhost:4222/a"] []).2.2.1
      "nats://localhost:4222/a" rfl rfl hv⟩

end Almanach
